import Mathlib

/-!
Shallow embedding of the Tetris engine from `src/main.py`.

Conventions of the embedding:
* A grid cell is the RGB triple the source stores (`BLACK` is the empty sentinel).
* Python ints are `Int` where values may be compared/subtracted, `Nat` for the
  counters that are provably non-negative in the source (score, level,
  lines_cleared, rotation index).
* `random.choice` is modelled by a stream `seq : Nat → Shape` carried in the
  game state together with a cursor `idx`; each `get_new_piece` call reads
  `seq idx` and advances the cursor.
* The in-place mutate-then-restore of `piece.rotation` inside
  `is_valid_position` (source lines 216-231) is embedded by
  `is_valid_position_run`, which returns the piece as it stands when the
  function returns, and `is_valid_position_transient`, the piece as it stands
  between the write `piece.rotation = rotation` and the restore.
-/

namespace Tetris

/-- RGB triple, exactly the tuples the pygame source uses for cells. -/
abbrev Cell := Nat × Nat × Nat

def BLACK : Cell := (0, 0, 0)

def RED : Cell := (255, 0, 0)

def GREEN : Cell := (0, 255, 0)

def BLUE : Cell := (0, 0, 255)

def YELLOW : Cell := (255, 255, 0)

def ORANGE : Cell := (255, 165, 0)

def PURPLE : Cell := (128, 0, 128)

def CYAN : Cell := (0, 255, 255)

def GRID_WIDTH : Nat := 10

def GRID_HEIGHT : Nat := 20

/-- The seven tetromino kinds (`TETROMINOES.keys()` in the source). -/
inductive Shape where
  | I
  | O
  | T
  | S
  | Z
  | J
  | L
deriving DecidableEq

/-- The 5x5 string masks of `TETROMINOES`, copied verbatim from the source. -/
def TETROMINOES : Shape → List (List String)
  | .I => [[".....", "..#..", "..#..", "..#..", "..#.."],
           [".....", ".....", "####.", ".....", "....."]]
  | .O => [[".....", ".....", ".##..", ".##..", "....."]]
  | .T => [[".....", ".....", ".#...", "###..", "....."],
           [".....", ".....", ".#...", ".##..", ".#..."],
           [".....", ".....", ".....", "###..", ".#..."],
           [".....", ".....", ".#...", "##...", ".#..."]]
  | .S => [[".....", ".....", ".##..", "##...", "....."],
           [".....", ".....", ".#...", ".##..", "..#.."]]
  | .Z => [[".....", ".....", "##...", ".##..", "....."],
           [".....", ".....", "..#..", ".##..", ".#..."]]
  | .J => [[".....", ".....", ".#...", ".#...", "##..."],
           [".....", ".....", ".....", "#....", "###.."],
           [".....", ".....", ".##..", ".#...", ".#..."],
           [".....", ".....", ".....", "###..", "..#.."]]
  | .L => [[".....", ".....", ".#...", ".#...", ".##.."],
           [".....", ".....", ".....", "###..", "#...."],
           [".....", ".....", "##...", ".#...", ".#..."],
           [".....", ".....", ".....", "..#..", "###.."]]

/-- The color table `TETROMINO_COLORS` from the source. -/
def TETROMINO_COLORS : Shape → Cell
  | .I => CYAN
  | .O => YELLOW
  | .T => PURPLE
  | .S => GREEN
  | .Z => RED
  | .J => BLUE
  | .L => ORANGE

/-- A `Tetromino` instance: position, kind, color (set at construction from
`TETROMINO_COLORS`) and rotation index. -/
structure Tetromino where
  x : Int
  y : Int
  shape : Shape
  color : Cell
  rotation : Nat
deriving DecidableEq

/-- Source `Tetromino.get_rotated_shape`: the active mask, rotation taken modulo the
kind's state count. -/
def get_rotated_shape (p : Tetromino) : List String :=
  (TETROMINOES p.shape).getD (p.rotation % (TETROMINOES p.shape).length) []

/-- The `(j, i)` offsets of the `#` cells of a mask, enumerated row by row as
the source's nested loop does. -/
def mask_offsets (m : List String) : List (Nat × Nat) :=
  m.enum.flatMap fun r =>
    r.2.toList.enum.filterMap fun c => if c.2 = '#' then some (c.1, r.1) else none

/-- Source `Tetromino.get_cells`: absolute cells `(x + j, y + i)` of the active mask,
in the source's enumeration order. -/
def get_cells (p : Tetromino) : List (Int × Int) :=
  (mask_offsets (get_rotated_shape p)).map fun o => (p.x + (o.1 : Int), p.y + (o.2 : Int))

abbrev Row := List Cell

abbrev Grid := List Row

/-- Read `grid[y][x]` (only consulted by the source after a bounds check). -/
def cellAt (g : Grid) (x y : Int) : Cell :=
  (g.getD y.toNat []).getD x.toNat BLACK

/-- Source `TetrisGame.is_valid_position`, embedded with its explicit
save/override/restore of `piece.rotation`: the result is the piece as it
stands at return time, paired with the boolean verdict. -/
def is_valid_position_run (g : Grid) (piece : Tetromino) (dx dy : Int)
    (rotation : Option Nat) : Tetromino × Bool :=
  let rot := rotation.getD piece.rotation
  let old_rotation := piece.rotation
  let trial : Tetromino := { piece with rotation := rot }
  let ok := (get_cells trial).all fun c =>
    !(decide (c.1 + dx < 0) || decide ((GRID_WIDTH : Int) ≤ c.1 + dx) ||
      decide ((GRID_HEIGHT : Int) ≤ c.2 + dy)) &&
    !(decide (0 ≤ c.2 + dy) && (cellAt g (c.1 + dx) (c.2 + dy) != BLACK))
  ({ trial with rotation := old_rotation }, ok)

/-- The boolean verdict of `is_valid_position`. -/
def is_valid_position (g : Grid) (piece : Tetromino) (dx dy : Int)
    (rotation : Option Nat) : Bool :=
  (is_valid_position_run g piece dx dy rotation).2

/-- The piece as it stands mid-call inside `is_valid_position`, after the
in-place write `piece.rotation = rotation` (source line 217) and before the
restore `piece.rotation = old_rotation`. -/
def is_valid_position_transient (piece : Tetromino) (rotation : Option Nat) : Tetromino :=
  { piece with rotation := rotation.getD piece.rotation }

/-- Write one cell: `grid[y][x] = col`. -/
def set_cell (g : Grid) (x y : Int) (col : Cell) : Grid :=
  g.set y.toNat ((g.getD y.toNat []).set x.toNat col)

/-- Source `TetrisGame.place_piece`: write the piece color at every cell with
`y >= 0`. -/
def place_piece (g : Grid) (p : Tetromino) : Grid :=
  (get_cells p).foldl (fun acc c => if 0 ≤ c.2 then set_cell acc c.1 c.2 p.color else acc) g

/-- A fresh all-black row (`[BLACK for _ in range(GRID_WIDTH)]`). -/
def empty_row : Row := List.replicate GRID_WIDTH BLACK

/-- The construction-time grid: `GRID_HEIGHT` empty rows. -/
def init_grid : Grid := List.replicate GRID_HEIGHT empty_row

/-- A row is complete when every cell differs from `BLACK`. -/
def row_complete (row : Row) : Bool := row.all fun cell => cell != BLACK

/-- The indices collected by the first loop of `clear_lines`, scanning
`range(GRID_HEIGHT)` on the grid as it stands before any deletion. -/
def lines_to_clear (g : Grid) : List Nat :=
  (List.range GRID_HEIGHT).filter fun y => row_complete (g.getD y [])

/-- One iteration of the deletion loop: `del grid[y]; grid.insert(0, empty)`. -/
def clear_step (g : Grid) (y : Nat) : Grid := empty_row :: g.eraseIdx y

/-- The grid after `clear_lines`'s deletion loop. -/
def clear_lines_grid (g : Grid) : Grid := (lines_to_clear g).foldl clear_step g

/-- Construction `Tetromino(GRID_WIDTH // 2 - 2, 0)` with the given kind drawn from the
random stream; color is fixed from `TETROMINO_COLORS`, rotation starts at 0. -/
def new_piece (s : Shape) : Tetromino :=
  { x := (GRID_WIDTH : Int) / 2 - 2, y := 0, shape := s,
    color := TETROMINO_COLORS s, rotation := 0 }

/-- The engine state of `TetrisGame` (UI fields omitted), plus the modelled
random stream `seq` and its cursor `idx`. -/
structure TetrisGame where
  grid : Grid
  current_piece : Tetromino
  next_piece : Tetromino
  score : Nat
  level : Nat
  lines_cleared : Nat
  fall_time : Int
  fall_speed : Int
  game_over : Bool
  seq : Nat → Shape
  idx : Nat

/-- Source `TetrisGame.__init__` (engine fields). -/
def init_game (seq : Nat → Shape) : TetrisGame :=
  { grid := init_grid, current_piece := new_piece (seq 0), next_piece := new_piece (seq 1),
    score := 0, level := 1, lines_cleared := 0, fall_time := 0, fall_speed := 500,
    game_over := false, seq := seq, idx := 2 }

/-- Source `TetrisGame.clear_lines`: run the deletion loop, then update the counters
only when at least one line was cleared. -/
def clear_lines (s : TetrisGame) : TetrisGame :=
  let n := (lines_to_clear s.grid).length
  let g2 := clear_lines_grid s.grid
  if 0 < n then
    let lines2 := s.lines_cleared + n
    let level2 := lines2 / 10 + 1
    { s with
      grid := g2
      lines_cleared := lines2
      score := s.score + n * 100 * s.level
      level := level2
      fall_speed := max 50 (500 - ((level2 : Int) - 1) * 50) }
  else
    { s with grid := g2 }

/-- Source `TetrisGame.update(dt)`. -/
def update (s : TetrisGame) (dt : Int) : TetrisGame :=
  if s.game_over then s
  else
    let ft := s.fall_time + dt
    if s.fall_speed ≤ ft then
      if is_valid_position s.grid s.current_piece 0 1 none then
        { s with
          current_piece := { s.current_piece with y := s.current_piece.y + 1 }
          fall_time := 0 }
      else
        let s1 := clear_lines
          { s with
            grid := place_piece s.grid s.current_piece
            fall_time := ft }
        let s2 :=
          { s1 with
            current_piece := s1.next_piece
            next_piece := new_piece (s1.seq s1.idx)
            idx := s1.idx + 1 }
        let s3 := if is_valid_position s2.grid s2.current_piece 0 0 none then s2
                  else { s2 with game_over := true }
        { s3 with fall_time := 0 }
    else
      { s with fall_time := ft }

/-- Source `TetrisGame.move_piece(dx)` (note: no game-over guard in the source). -/
def move_piece (s : TetrisGame) (dx : Int) : TetrisGame :=
  if is_valid_position s.grid s.current_piece dx 0 none then
    { s with current_piece := { s.current_piece with x := s.current_piece.x + dx } }
  else s

/-- Source `TetrisGame.rotate_piece` (no wall kicks, no game-over guard). -/
def rotate_piece (s : TetrisGame) : TetrisGame :=
  let new_rotation := (s.current_piece.rotation + 1) % (TETROMINOES s.current_piece.shape).length
  if is_valid_position s.grid s.current_piece 0 0 (some new_rotation) then
    { s with current_piece := { s.current_piece with rotation := new_rotation } }
  else s

/-- The soft-drop branch of the key handler in `run`: one `dy = 1` move if
valid. -/
def soft_drop (s : TetrisGame) : TetrisGame :=
  if is_valid_position s.grid s.current_piece 0 1 none then
    { s with current_piece := { s.current_piece with y := s.current_piece.y + 1 } }
  else s

/-- Updating a record with its own rotation collapses by structure eta. -/
def rotation_set_self (p : Tetromino) : { p with rotation := p.rotation } = p := rfl

/-- Every kind has at least one rotation state. -/
def tetromino_masks_pos (s : Shape) : 0 < (TETROMINOES s).length := by
  cases s <;> decide

/-- Reading with `getD` at an in-range index gives a member. -/
def getD_mem_of_lt {α : Type} (l : List α) (n : Nat) (d : α) (h : n < l.length) :
    l.getD n d ∈ l := by
  rw [List.getD_eq_getElem?_getD, List.getElem?_eq_getElem h]
  exact List.getElem_mem h

/-- Every rotation mask of every kind marks at least one cell. -/
def mask_offsets_mem_ne (s : Shape) : ∀ m ∈ TETROMINOES s, mask_offsets m ≠ [] := by
  cases s <;> decide

/-- The active mask of a piece is one of its kind's masks. -/
def get_rotated_shape_mem (p : Tetromino) : get_rotated_shape p ∈ TETROMINOES p.shape := by
  unfold get_rotated_shape
  exact getD_mem_of_lt _ _ _ (Nat.mod_lt _ (tetromino_masks_pos p.shape))

/-- A piece always occupies at least one cell. -/
def get_cells_ne_nil (p : Tetromino) : get_cells p ≠ [] := by
  unfold get_cells
  intro hmap
  exact mask_offsets_mem_ne p.shape (get_rotated_shape p) (get_rotated_shape_mem p)
    (List.map_eq_nil_iff.mp hmap)

/-- Every cell of a piece sits at or below the anchor row. -/
def get_cells_y_ge (p : Tetromino) : ∀ c ∈ get_cells p, p.y ≤ c.2 := by
  intro c hc
  unfold get_cells at hc
  obtain ⟨o, _, rfl⟩ := List.mem_map.mp hc
  show p.y ≤ p.y + (o.2 : Int)
  omega

/-- The per-cell boolean test of `is_valid_position`, as a proposition. -/
def valid_cell_iff (g : Grid) (dx dy : Int) (c : Int × Int) :
    (!(decide (c.1 + dx < 0) || decide ((GRID_WIDTH : Int) ≤ c.1 + dx) ||
      decide ((GRID_HEIGHT : Int) ≤ c.2 + dy)) &&
     !(decide (0 ≤ c.2 + dy) && (cellAt g (c.1 + dx) (c.2 + dy) != BLACK))) = true ↔
      (0 ≤ c.1 + dx ∧ c.1 + dx < (GRID_WIDTH : Int) ∧ c.2 + dy < (GRID_HEIGHT : Int) ∧
        (c.2 + dy < 0 ∨ cellAt g (c.1 + dx) (c.2 + dy) = BLACK)) := by
  by_cases h1 : c.1 + dx < 0 <;> by_cases h2 : (GRID_WIDTH : Int) ≤ c.1 + dx <;>
    by_cases h3 : (GRID_HEIGHT : Int) ≤ c.2 + dy <;> by_cases h4 : 0 ≤ c.2 + dy <;>
    by_cases h5 : cellAt g (c.1 + dx) (c.2 + dy) = BLACK <;>
    simp [h1, h2, h3, h4, h5] <;> omega

/-- Membership characterization of `is_valid_position`. -/
def is_valid_iff (g : Grid) (p : Tetromino) (dx dy : Int) (rot : Option Nat) :
    is_valid_position g p dx dy rot = true ↔
      ∀ c ∈ get_cells { p with rotation := rot.getD p.rotation },
        0 ≤ c.1 + dx ∧ c.1 + dx < (GRID_WIDTH : Int) ∧ c.2 + dy < (GRID_HEIGHT : Int) ∧
          (c.2 + dy < 0 ∨ cellAt g (c.1 + dx) (c.2 + dy) = BLACK) := by
  unfold is_valid_position is_valid_position_run
  simp only [List.all_eq_true]
  exact forall_congr' fun c => imp_congr_right fun _ => valid_cell_iff g dx dy c

/-- A piece that can still move down has its anchor at row 18 or above. -/
def valid_down_y_le (g : Grid) (p : Tetromino) (h : is_valid_position g p 0 1 none = true) :
    p.y ≤ 18 := by
  rw [is_valid_iff] at h
  simp only [Option.getD_none, rotation_set_self] at h
  obtain ⟨c, hc⟩ := List.exists_mem_of_ne_nil _ (get_cells_ne_nil p)
  have h2 := h c hc
  have h3 := get_cells_y_ge p c hc
  have : c.2 + 1 < (GRID_HEIGHT : Int) := h2.2.2.1
  unfold GRID_HEIGHT at this
  omega

/-- The while-loop of `TetrisGame.drop_piece`. -/
def drop_piece_go (g : Grid) (p : Tetromino) : Tetromino :=
  if h : is_valid_position g p 0 1 none = true then
    drop_piece_go g { p with y := p.y + 1 }
  else p
termination_by (20 - p.y).toNat
decreasing_by
  have h1 := valid_down_y_le g p h
  show (20 - (p.y + 1)).toNat < (20 - p.y).toNat
  omega

/-- Source `TetrisGame.drop_piece` (hard drop; no game-over guard, no locking). -/
def drop_piece (s : TetrisGame) : TetrisGame :=
  { s with current_piece := drop_piece_go s.grid s.current_piece }

/-- Source `TetrisGame.reset_game`. -/
def reset_game (s : TetrisGame) : TetrisGame :=
  { grid := init_grid, current_piece := new_piece (s.seq s.idx),
    next_piece := new_piece (s.seq (s.idx + 1)), score := 0, level := 1,
    lines_cleared := 0, fall_time := 0, fall_speed := 500, game_over := false,
    seq := s.seq, idx := s.idx + 2 }

/-- The per-game frame condition of the unguarded manual operations: every
engine field except the current piece is unchanged. -/
def frame_except_current (s t : TetrisGame) : Prop :=
  t.grid = s.grid ∧ t.score = s.score ∧ t.level = s.level ∧
  t.lines_cleared = s.lines_cleared ∧ t.fall_time = s.fall_time ∧
  t.fall_speed = s.fall_speed ∧ t.next_piece = s.next_piece ∧
  t.game_over = s.game_over

/-- A concrete game-over state: a fresh game with the flag forced on. -/
def over_state : TetrisGame := { init_game (fun _ => Shape.O) with game_over := true }

/-- The positions at which a predicate holds in a list, ascending; a
structural rendering of the index list `lines_to_clear` collects. -/
def idx_where {α : Type} (p : α → Bool) : List α → List Nat
  | [] => []
  | a :: l =>
    if p a then 0 :: (idx_where p l).map (· + 1) else (idx_where p l).map (· + 1)

/-- A completely filled row (all cells the I-piece tag). -/
def full_row : Row := List.replicate GRID_WIDTH CYAN

/-- A partially filled row: one occupied cell, nine empty. -/
def half_row : Row := CYAN :: List.replicate 9 BLACK

/-- The spec's line-clear scenario grid: `[complete, partial, complete]` on
top of 17 empty rows. -/
def c2_state : TetrisGame :=
  { init_game (fun _ => Shape.L) with
    grid := full_row :: half_row :: full_row :: List.replicate 17 empty_row }

/-- The fresh-state score scenario: four complete rows at the bottom of an
otherwise fresh game. -/
def c3_state : TetrisGame :=
  { init_game (fun _ => Shape.I) with
    grid := List.replicate 16 empty_row ++ List.replicate 4 full_row }

/-- A fresh game used as a concrete tick witness. -/
def c4_state : TetrisGame := init_game (fun _ => Shape.S)

/-- States reachable from construction by the engine operations the
presentation layer can invoke. -/
inductive Reachable : TetrisGame → Prop where
  | init (seq : Nat → Shape) : Reachable (init_game seq)
  | tick (s : TetrisGame) (dt : Int) : Reachable s → Reachable (update s dt)
  | move (s : TetrisGame) (dx : Int) : Reachable s → Reachable (move_piece s dx)
  | rot (s : TetrisGame) : Reachable s → Reachable (rotate_piece s)
  | soft (s : TetrisGame) : Reachable s → Reachable (soft_drop s)
  | hard (s : TetrisGame) : Reachable s → Reachable (drop_piece s)
  | reset (s : TetrisGame) : Reachable s → Reachable (reset_game s)

/-- Every grid cell is the empty sentinel or a piece-kind tag. -/
def cells_ok (g : Grid) : Prop :=
  ∀ row ∈ g, ∀ cell ∈ row, cell = BLACK ∨ ∃ k : Shape, cell = TETROMINO_COLORS k

/-- The inductive invariant of reachable engine states: while the game is
running the current piece occupies a valid position, both live pieces carry
their kind's color tag, and the grid has full height with only
sentinel-or-tag cells. -/
def game_inv (s : TetrisGame) : Prop :=
  (s.game_over = false → is_valid_position s.grid s.current_piece 0 0 none = true) ∧
  s.current_piece.color = TETROMINO_COLORS s.current_piece.shape ∧
  s.next_piece.color = TETROMINO_COLORS s.next_piece.shape ∧
  s.grid.length = GRID_HEIGHT ∧
  cells_ok s.grid

/-- The lock branch of `update`: place the current piece, clear lines,
promote `next`, draw a fresh `next`, flag game over iff the promoted piece's
spawn position is invalid, and reset the fall accumulator. -/
def lock_result (s : TetrisGame) (dt : Int) : TetrisGame :=
  let s1 := clear_lines
    { s with
      grid := place_piece s.grid s.current_piece
      fall_time := s.fall_time + dt }
  let s2 :=
    { s1 with
      current_piece := s1.next_piece
      next_piece := new_piece (s1.seq s1.idx)
      idx := s1.idx + 1 }
  let s3 := if is_valid_position s2.grid s2.current_piece 0 0 none then s2
            else { s2 with game_over := true }
  { s3 with fall_time := 0 }

/-- C10: every piece kind's color tag differs from the empty-cell sentinel
`BLACK`, so a cell written by `place_piece` never passes the engine's
emptiness test (`== BLACK`) used by `is_valid_position` and `clear_lines`. -/
theorem tetromino_colors_ne_black :
    ∀ k : Shape, TETROMINO_COLORS k ≠ BLACK ∧ (TETROMINO_COLORS k != BLACK) = true := by
  intro k
  cases k <;> exact ⟨by decide, by decide⟩

/-- C5: `is_valid_position` returns true iff every cell of the piece, after
the translation and the optional rotation override, is inside the x bounds,
above-or-inside the bottom bound, and either above the visible field
(`y < 0`) or over an empty grid cell. -/
theorem is_valid_position_characterization (g : Grid) (p : Tetromino) (dx dy : Int)
    (rot : Option Nat) :
    is_valid_position g p dx dy rot = true ↔
      ∀ c ∈ get_cells { p with rotation := rot.getD p.rotation },
        0 ≤ c.1 + dx ∧ c.1 + dx < (GRID_WIDTH : Int) ∧ c.2 + dy < (GRID_HEIGHT : Int) ∧
          (c.2 + dy < 0 ∨ cellAt g (c.1 + dx) (c.2 + dy) = BLACK) :=
  is_valid_iff g p dx dy rot

/-- C6 counterexample: mid-call, after the in-place write
`piece.rotation = rotation` and before the restore, the piece's rotation
field differs from its value at entry — the mutation is transiently
observable, refuting "does not mutate ... even transiently". -/
theorem is_valid_position_transient_mutation :
    (is_valid_position_transient (new_piece Shape.T) (some 1)).rotation = 1 ∧
      (new_piece Shape.T).rotation = 0 := by
  exact ⟨rfl, rfl⟩

/-- C6 (amended): `is_valid_position` restores the piece's rotation on every
return path, so at return the piece is exactly the piece that was passed in
(and the grid is only read, never produced); transiently, however, the
rotation field holds the override. -/
theorem is_valid_position_restores_piece (g : Grid) (p : Tetromino) (dx dy : Int)
    (rot : Option Nat) : (is_valid_position_run g p dx dy rot).1 = p := rfl

/-- C8: `rotate_piece` computes the candidate index
`(rotation + 1) % stateCount` and commits it iff `is_valid_position` accepts
it — there is no wall-kick fallback; on rejection the current piece (hence
its occupied cell set) is exactly unchanged, and the rest of the state is
untouched either way. -/
theorem rotate_piece_spec (s : TetrisGame) :
    ((rotate_piece s).current_piece =
      if is_valid_position s.grid s.current_piece 0 0
           (some ((s.current_piece.rotation + 1) %
             (TETROMINOES s.current_piece.shape).length)) = true
      then { s.current_piece with
             rotation := (s.current_piece.rotation + 1) %
               (TETROMINOES s.current_piece.shape).length }
      else s.current_piece) ∧
    frame_except_current s (rotate_piece s) ∧
    (rotate_piece s).current_piece.x = s.current_piece.x ∧
    (rotate_piece s).current_piece.y = s.current_piece.y ∧
    (rotate_piece s).current_piece.shape = s.current_piece.shape := by
  unfold rotate_piece frame_except_current
  by_cases h : is_valid_position s.grid s.current_piece 0 0
      (some ((s.current_piece.rotation + 1) %
        (TETROMINOES s.current_piece.shape).length)) = true
  · simp [h]
  · simp [h]

/-- C1 counterexample: with `game_over` set, `move_piece` still mutates the
current piece (its x goes from 3 to 4): the manual operations carry no
game-over guard in the source. -/
theorem game_over_move_still_moves :
    over_state.game_over = true ∧ over_state.current_piece.x = 3 ∧
      (move_piece over_state 1).current_piece.x = 4 := by
  refine ⟨rfl, rfl, ?_⟩
  decide

/-- C1 (amended): once `game_over` is set, `update` is a total no-op and every
other operation except `reset_game` leaves the grid, score, level, line
count, fall accumulator/interval, next piece and the flag itself unchanged
(though the unguarded manual operations may still move the current piece);
`reset_game` clears the flag. -/
theorem game_over_terminality (s : TetrisGame) (h : s.game_over = true) (dt dx : Int) :
    update s dt = s ∧
    frame_except_current s (move_piece s dx) ∧
    frame_except_current s (rotate_piece s) ∧
    frame_except_current s (soft_drop s) ∧
    frame_except_current s (drop_piece s) ∧
    (reset_game s).game_over = false := by
  refine ⟨?_, ?_, ?_, ?_, ?_, rfl⟩
  · unfold update
    simp [h]
  · unfold move_piece frame_except_current
    by_cases hv : is_valid_position s.grid s.current_piece dx 0 none = true <;> simp [hv]
  · unfold rotate_piece frame_except_current
    by_cases hv : is_valid_position s.grid s.current_piece 0 0
        (some ((s.current_piece.rotation + 1) %
          (TETROMINOES s.current_piece.shape).length)) = true <;> simp [hv]
  · unfold soft_drop frame_except_current
    by_cases hv : is_valid_position s.grid s.current_piece 0 1 none = true <;> simp [hv]
  · unfold drop_piece frame_except_current
    simp

/-- Witness for C1's amended theorem at a concrete game-over state. -/
theorem game_over_terminality_witness :
    over_state.game_over = true ∧
      (update over_state 0 = over_state ∧
       frame_except_current over_state (move_piece over_state 1) ∧
       frame_except_current over_state (rotate_piece over_state) ∧
       frame_except_current over_state (soft_drop over_state) ∧
       frame_except_current over_state (drop_piece over_state) ∧
       (reset_game over_state).game_over = false) :=
  ⟨rfl, game_over_terminality over_state rfl 0 1⟩

theorem idx_where_length {α : Type} (p : α → Bool) (l : List α) :
    (idx_where p l).length = l.countP p := by
  induction l with
  | nil => rfl
  | cons a t ih =>
    by_cases hp : p a
    · simp [idx_where, hp, List.countP_cons, ih]
    · simp [idx_where, hp, List.countP_cons, ih]

/-- The index scan of `clear_lines` (over `range(GRID_HEIGHT)`) agrees with
the structural index list when the grid has exactly `GRID_HEIGHT` rows. -/
theorem range_filter_getD {α : Type} (p : α → Bool) (d : α) (l : List α) :
    (List.range l.length).filter (fun y => p (l.getD y d)) = idx_where p l := by
  induction l with
  | nil => rfl
  | cons a t ih =>
    rw [List.length_cons, List.range_succ_eq_map, List.filter_cons]
    by_cases hp : p a
    · simp only [List.getD_cons_zero, hp, if_true]
      rw [List.filter_map]
      simp only [Function.comp_def, List.getD_cons_succ]
      rw [ih]
      simp [idx_where, hp, Nat.succ_eq_add_one, Nat.add_comm]
    · rw [if_neg (by simp [List.getD_cons_zero, hp])]
      rw [List.filter_map]
      simp only [Function.comp_def, List.getD_cons_succ]
      rw [ih]
      simp [idx_where, hp, Nat.succ_eq_add_one, Nat.add_comm]

theorem lines_to_clear_eq_idx_where (g : Grid) (h : g.length = GRID_HEIGHT) :
    lines_to_clear g = idx_where row_complete g := by
  unfold lines_to_clear
  rw [← h, range_filter_getD]

theorem eraseIdx_append_length {α : Type} (pre : List α) (a : α) (l : List α) :
    (pre ++ a :: l).eraseIdx pre.length = pre ++ l := by
  induction pre with
  | nil => rfl
  | cons b t ih => simp [List.eraseIdx_cons_succ, ih]

/-- The deletion loop of `clear_lines`, started at an arbitrary already
processed prefix: complete rows are removed, an equal number of empty rows is
prepended, and the remaining rows keep their order. -/
theorem foldl_clear_eq (l : Grid) :
    ∀ pre : Grid,
      ((idx_where row_complete l).map (· + pre.length)).foldl clear_step (pre ++ l) =
        List.replicate (l.countP row_complete) empty_row ++ pre ++
          l.filter (fun r => !(row_complete r)) := by
  induction l with
  | nil => intro pre; simp [idx_where]
  | cons a t ih =>
    intro pre
    by_cases hp : row_complete a
    · have hmap : ((idx_where row_complete t).map (· + 1)).map (· + pre.length) =
          (idx_where row_complete t).map (· + (empty_row :: pre).length) := by
        rw [List.map_map]
        apply List.map_congr_left
        intro y _
        simp [Function.comp_def]
        omega
      have hidx : idx_where row_complete (a :: t) =
          0 :: (idx_where row_complete t).map (· + 1) := by
        simp [idx_where, hp]
      rw [hidx, List.map_cons, List.foldl_cons]
      have hstep : clear_step (pre ++ a :: t) (0 + pre.length) = (empty_row :: pre) ++ t := by
        unfold clear_step
        rw [Nat.zero_add, eraseIdx_append_length]
        rfl
      rw [hstep, hmap, ih (empty_row :: pre)]
      rw [List.countP_cons_of_pos _ _ hp, List.filter_cons_of_neg (by simp [hp])]
      rw [List.replicate_succ']
      simp [List.append_assoc]
    · have hmap : ((idx_where row_complete t).map (· + 1)).map (· + pre.length) =
          (idx_where row_complete t).map (· + (pre ++ [a]).length) := by
        rw [List.map_map]
        apply List.map_congr_left
        intro y _
        simp [Function.comp_def]
        omega
      have hidx : idx_where row_complete (a :: t) =
          (idx_where row_complete t).map (· + 1) := by
        simp [idx_where, hp]
      have hacc : pre ++ a :: t = (pre ++ [a]) ++ t := by simp
      rw [hidx, hmap, hacc, ih (pre ++ [a])]
      rw [List.countP_cons_of_neg _ _ (by simp [hp]), List.filter_cons_of_pos (by simp [hp])]
      simp [List.append_assoc]

/-- The grid produced by `clear_lines` on a full-height grid: the complete
rows vanish, an equal number of fresh empty rows is prepended, and the
incomplete rows keep their relative order. -/
theorem clear_lines_grid_eq (g : Grid) (h : g.length = GRID_HEIGHT) :
    clear_lines_grid g =
      List.replicate (g.countP row_complete) empty_row ++
        g.filter (fun r => !(row_complete r)) := by
  unfold clear_lines_grid
  rw [lines_to_clear_eq_idx_where g h]
  have h0 := foldl_clear_eq g []
  simpa using h0

/-- The function `clear_lines` installs the looped grid whether or not lines cleared. -/
theorem clear_lines_grid_proj (s : TetrisGame) :
    (clear_lines s).grid = clear_lines_grid s.grid := by
  unfold clear_lines
  by_cases h : 0 < (lines_to_clear s.grid).length <;> simp [h]

/-- C2: `clear_lines` counts exactly the complete rows (scanning
top-to-bottom), removes them all, prepends an equal number of empty rows while
preserving the order of the remaining rows, and when no row is complete it
returns 0 and the whole state is untouched. -/
theorem clear_lines_correct (s : TetrisGame) (h : s.grid.length = GRID_HEIGHT) :
    (lines_to_clear s.grid).length = s.grid.countP row_complete ∧
    (clear_lines s).grid =
      List.replicate (s.grid.countP row_complete) empty_row ++
        s.grid.filter (fun r => !(row_complete r)) ∧
    (s.grid.countP row_complete = 0 → clear_lines s = s) := by
  have hlen : (lines_to_clear s.grid).length = s.grid.countP row_complete := by
    rw [lines_to_clear_eq_idx_where s.grid h, idx_where_length]
  refine ⟨hlen, ?_, ?_⟩
  · rw [clear_lines_grid_proj, clear_lines_grid_eq s.grid h]
  · intro h0
    have hfil : s.grid.filter (fun r => !(row_complete r)) = s.grid := by
      rw [List.filter_eq_self]
      intro r hr
      simp only [Bool.not_eq_eq_eq_not, Bool.not_true]
      exact Bool.eq_false_iff.mpr (List.countP_eq_zero.mp h0 r hr)
    unfold clear_lines
    rw [if_neg (by omega)]
    have : clear_lines_grid s.grid = s.grid := by
      rw [clear_lines_grid_eq s.grid h, h0, hfil]
      rfl
    rw [this]

/-- Witness for C2 at the spec's `[complete, partial, complete]` scenario. -/
theorem clear_lines_correct_witness :
    c2_state.grid.length = GRID_HEIGHT ∧
      ((lines_to_clear c2_state.grid).length = c2_state.grid.countP row_complete ∧
       (clear_lines c2_state).grid =
         List.replicate (c2_state.grid.countP row_complete) empty_row ++
           c2_state.grid.filter (fun r => !(row_complete r)) ∧
       (c2_state.grid.countP row_complete = 0 → clear_lines c2_state = c2_state)) :=
  ⟨by decide, clear_lines_correct c2_state (by decide)⟩

/-- C3: when `clear_lines` clears `n > 0` lines, the cumulative line count
grows by `n`, the score grows by `n * 100 *` (the pre-call level), the new
level is (cumulative lines) / 10 + 1 by integer division, and the fall
interval becomes `max 50 (500 - (level - 1) * 50)`. -/
theorem clear_lines_scoring (s : TetrisGame)
    (h : 0 < (lines_to_clear s.grid).length) :
    (clear_lines s).lines_cleared = s.lines_cleared + (lines_to_clear s.grid).length ∧
    (clear_lines s).score = s.score + (lines_to_clear s.grid).length * 100 * s.level ∧
    (clear_lines s).level = (s.lines_cleared + (lines_to_clear s.grid).length) / 10 + 1 ∧
    (clear_lines s).fall_speed =
      max 50 (500 -
        (((s.lines_cleared + (lines_to_clear s.grid).length) / 10 + 1 : Nat) - 1 : Int) * 50) := by
  refine ⟨?_, ?_, ?_, ?_⟩ <;> · unfold clear_lines; rw [if_pos h]

/-- Witness for C3: clearing 4 lines from the fresh state gives score 400,
level 1 (4 / 10 + 1), line count 4, interval still 500. -/
theorem clear_lines_scoring_witness :
    0 < (lines_to_clear c3_state.grid).length ∧
      ((clear_lines c3_state).lines_cleared =
         c3_state.lines_cleared + (lines_to_clear c3_state.grid).length ∧
       (clear_lines c3_state).score =
         c3_state.score + (lines_to_clear c3_state.grid).length * 100 * c3_state.level ∧
       (clear_lines c3_state).level =
         (c3_state.lines_cleared + (lines_to_clear c3_state.grid).length) / 10 + 1 ∧
       (clear_lines c3_state).fall_speed =
         max 50 (500 -
           (((c3_state.lines_cleared + (lines_to_clear c3_state.grid).length) / 10 + 1 : Nat)
             - 1 : Int) * 50)) ∧
      (clear_lines c3_state).score = 400 ∧ (clear_lines c3_state).level = 1 ∧
      (clear_lines c3_state).lines_cleared = 4 ∧ (clear_lines c3_state).fall_speed = 500 :=
  ⟨by decide, clear_lines_scoring c3_state (by decide), by decide, by decide, by decide, by decide⟩

/-- The hard-drop loop: full characterization — the piece keeps its column,
kind, color and rotation, only descends, and ends where one more step down
is invalid. -/
theorem drop_piece_go_spec_aux (g : Grid) :
    ∀ (m : Nat) (p : Tetromino), (20 - p.y).toNat = m →
      is_valid_position g (drop_piece_go g p) 0 1 none = false ∧
      (drop_piece_go g p).x = p.x ∧ (drop_piece_go g p).shape = p.shape ∧
      (drop_piece_go g p).color = p.color ∧ (drop_piece_go g p).rotation = p.rotation ∧
      p.y ≤ (drop_piece_go g p).y := by
  intro m
  induction m using Nat.strong_induction_on with
  | _ m ih =>
    intro p hm
    unfold drop_piece_go
    split
    case isTrue hv =>
      have hy := valid_down_y_le g p hv
      have hrec := ih ((20 - (p.y + 1)).toNat) (by omega) { p with y := p.y + 1 } rfl
      refine ⟨hrec.1, hrec.2.1, hrec.2.2.1, hrec.2.2.2.1, hrec.2.2.2.2.1, ?_⟩
      have h2 : p.y + 1 ≤ (drop_piece_go g { p with y := p.y + 1 }).y := hrec.2.2.2.2.2
      omega
    case isFalse hv =>
      exact ⟨Bool.eq_false_iff.mpr hv, rfl, rfl, rfl, rfl, le_refl _⟩

/-- The hard-drop loop: the piece keeps its column, kind, color and rotation,
only descends, and ends where one more step down is invalid. -/
theorem drop_piece_go_spec (g : Grid) (p : Tetromino) :
    is_valid_position g (drop_piece_go g p) 0 1 none = false ∧
    (drop_piece_go g p).x = p.x ∧ (drop_piece_go g p).shape = p.shape ∧
    (drop_piece_go g p).color = p.color ∧ (drop_piece_go g p).rotation = p.rotation ∧
    p.y ≤ (drop_piece_go g p).y :=
  drop_piece_go_spec_aux g _ p rfl

/-- C7: `drop_piece` moves the current piece down while the move is valid, so
afterwards one more step down is always invalid; it writes nothing to the
grid, clears no lines, and leaves score, level, line count, fall state, the
next piece, and the current piece's column/kind/rotation unchanged. -/
theorem drop_piece_maximality (s : TetrisGame) :
    is_valid_position s.grid (drop_piece s).current_piece 0 1 none = false ∧
    (drop_piece s).grid = s.grid ∧ (drop_piece s).score = s.score ∧
    (drop_piece s).level = s.level ∧ (drop_piece s).lines_cleared = s.lines_cleared ∧
    (drop_piece s).next_piece = s.next_piece ∧ (drop_piece s).game_over = s.game_over ∧
    (drop_piece s).fall_time = s.fall_time ∧ (drop_piece s).fall_speed = s.fall_speed ∧
    (drop_piece s).current_piece.x = s.current_piece.x ∧
    (drop_piece s).current_piece.shape = s.current_piece.shape ∧
    (drop_piece s).current_piece.rotation = s.current_piece.rotation ∧
    s.current_piece.y ≤ (drop_piece s).current_piece.y := by
  have h := drop_piece_go_spec s.grid s.current_piece
  exact ⟨h.1, rfl, rfl, rfl, rfl, rfl, rfl, rfl, rfl, h.2.1, h.2.2.1, h.2.2.2.2.1,
    h.2.2.2.2.2⟩

theorem clear_lines_current (s : TetrisGame) : (clear_lines s).current_piece = s.current_piece := by
  unfold clear_lines
  by_cases h : 0 < (lines_to_clear s.grid).length <;> simp [h]

theorem clear_lines_next (s : TetrisGame) : (clear_lines s).next_piece = s.next_piece := by
  unfold clear_lines
  by_cases h : 0 < (lines_to_clear s.grid).length <;> simp [h]

theorem clear_lines_over (s : TetrisGame) : (clear_lines s).game_over = s.game_over := by
  unfold clear_lines
  by_cases h : 0 < (lines_to_clear s.grid).length <;> simp [h]

theorem clear_lines_seq (s : TetrisGame) : (clear_lines s).seq = s.seq := by
  unfold clear_lines
  by_cases h : 0 < (lines_to_clear s.grid).length <;> simp [h]

theorem clear_lines_idx (s : TetrisGame) : (clear_lines s).idx = s.idx := by
  unfold clear_lines
  by_cases h : 0 < (lines_to_clear s.grid).length <;> simp [h]

/-- C4: one `update(dt)` call accrues `dt` into the fall accumulator; below
the interval nothing else changes; at or above it exactly one gravity step
runs and the accumulator resets to 0 — the piece descends one row when that
is valid, and otherwise the piece is locked into the grid, lines are cleared,
`next` is promoted, a fresh `next` is drawn from the stream, and `game_over`
becomes true iff the promoted piece's spawn position is invalid. -/
theorem update_characterization (s : TetrisGame) (dt : Int) (h : s.game_over = false) :
    (s.fall_time + dt < s.fall_speed →
      update s dt = { s with fall_time := s.fall_time + dt }) ∧
    (s.fall_speed ≤ s.fall_time + dt →
      (update s dt).fall_time = 0 ∧
      (is_valid_position s.grid s.current_piece 0 1 none = true →
        update s dt =
          { s with
            current_piece := { s.current_piece with y := s.current_piece.y + 1 }
            fall_time := 0 }) ∧
      (is_valid_position s.grid s.current_piece 0 1 none = false →
        (update s dt).grid = clear_lines_grid (place_piece s.grid s.current_piece) ∧
        (update s dt).current_piece = s.next_piece ∧
        (update s dt).next_piece = new_piece (s.seq s.idx) ∧
        (update s dt).idx = s.idx + 1 ∧
        ((update s dt).game_over = true ↔
          is_valid_position (clear_lines_grid (place_piece s.grid s.current_piece))
            s.next_piece 0 0 none = false))) := by
  have hng : ¬(s.game_over = true) := by simp [h]
  refine ⟨fun hlt => ?_, fun hge => ?_⟩
  · unfold update
    rw [if_neg hng]
    simp only []
    rw [if_neg (by omega)]
  · unfold update
    rw [if_neg hng]
    simp only []
    rw [if_pos hge]
    by_cases hv : is_valid_position s.grid s.current_piece 0 1 none = true
    · rw [if_pos hv]
      exact ⟨rfl, fun _ => rfl, fun hvf => absurd hv (by simp [hvf])⟩
    · rw [if_neg hv]
      simp only [clear_lines_grid_proj, clear_lines_next, clear_lines_current,
        clear_lines_over, clear_lines_seq, clear_lines_idx]
      by_cases hspawn : is_valid_position
          (clear_lines_grid (place_piece s.grid s.current_piece)) s.next_piece 0 0 none = true
      · rw [if_pos hspawn]
        simp [hv, h, hspawn, clear_lines_over]
      · rw [if_neg hspawn]
        simp [hv, h, Bool.eq_false_iff.mpr hspawn]

/-- Witness for C4 at the fresh state with a small tick (below interval, so
only the accumulator moves). -/
theorem update_characterization_witness :
    c4_state.game_over = false ∧
      ((c4_state.fall_time + 100 < c4_state.fall_speed →
        update c4_state 100 = { c4_state with fall_time := c4_state.fall_time + 100 }) ∧
       (c4_state.fall_speed ≤ c4_state.fall_time + 100 →
        (update c4_state 100).fall_time = 0 ∧
        (is_valid_position c4_state.grid c4_state.current_piece 0 1 none = true →
          update c4_state 100 =
            { c4_state with
              current_piece := { c4_state.current_piece with
                                 y := c4_state.current_piece.y + 1 }
              fall_time := 0 }) ∧
        (is_valid_position c4_state.grid c4_state.current_piece 0 1 none = false →
          (update c4_state 100).grid =
            clear_lines_grid (place_piece c4_state.grid c4_state.current_piece) ∧
          (update c4_state 100).current_piece = c4_state.next_piece ∧
          (update c4_state 100).next_piece = new_piece (c4_state.seq c4_state.idx) ∧
          (update c4_state 100).idx = c4_state.idx + 1 ∧
          ((update c4_state 100).game_over = true ↔
            is_valid_position
              (clear_lines_grid (place_piece c4_state.grid c4_state.current_piece))
              c4_state.next_piece 0 0 none = false)))) :=
  ⟨rfl, update_characterization c4_state 100 rfl⟩

theorem get_cells_shift_x (p : Tetromino) (dx : Int) :
    get_cells { p with x := p.x + dx } = (get_cells p).map fun c => (c.1 + dx, c.2) := by
  unfold get_cells
  rw [List.map_map]
  apply List.map_congr_left
  intro o _
  simp [Function.comp_def]
  ring

theorem get_cells_shift_y (p : Tetromino) (dy : Int) :
    get_cells { p with y := p.y + dy } = (get_cells p).map fun c => (c.1, c.2 + dy) := by
  unfold get_cells
  rw [List.map_map]
  apply List.map_congr_left
  intro o _
  simp [Function.comp_def]
  ring

theorem is_valid_shift_x (g : Grid) (p : Tetromino) (dx : Int) :
    is_valid_position g { p with x := p.x + dx } 0 0 none = is_valid_position g p dx 0 none := by
  rw [Bool.eq_iff_iff, is_valid_iff, is_valid_iff]
  simp only [Option.getD_none, rotation_set_self]
  rw [get_cells_shift_x]
  constructor
  · intro hval c hc
    have := hval (c.1 + dx, c.2) (List.mem_map_of_mem _ hc)
    simpa using this
  · intro hval c hc
    obtain ⟨c0, hc0, rfl⟩ := List.mem_map.mp hc
    have := hval c0 hc0
    simpa using this

theorem is_valid_shift_y (g : Grid) (p : Tetromino) (dy : Int) :
    is_valid_position g { p with y := p.y + dy } 0 0 none = is_valid_position g p 0 dy none := by
  rw [Bool.eq_iff_iff, is_valid_iff, is_valid_iff]
  simp only [Option.getD_none, rotation_set_self]
  rw [get_cells_shift_y]
  constructor
  · intro hval c hc
    have := hval (c.1, c.2 + dy) (List.mem_map_of_mem _ hc)
    simpa using this
  · intro hval c hc
    obtain ⟨c0, hc0, rfl⟩ := List.mem_map.mp hc
    have := hval c0 hc0
    simpa using this

theorem is_valid_rot (g : Grid) (p : Tetromino) (r : Nat) :
    is_valid_position g { p with rotation := r } 0 0 none =
      is_valid_position g p 0 0 (some r) := rfl

/-- A piece standing on a valid position covers only empty visible cells. -/
theorem valid_cells_empty (g : Grid) (p : Tetromino)
    (h : is_valid_position g p 0 0 none = true) :
    ∀ c ∈ get_cells p, 0 ≤ c.2 → cellAt g c.1 c.2 = BLACK := by
  rw [is_valid_iff] at h
  simp only [Option.getD_none, rotation_set_self] at h
  intro c hc hy
  have h1 := h c hc
  simp only [add_zero] at h1
  rcases h1.2.2.2 with h4 | h4
  · omega
  · exact h4

theorem set_cell_length (g : Grid) (x y : Int) (col : Cell) :
    (set_cell g x y col).length = g.length := by
  unfold set_cell
  exact List.length_set g _ _

theorem place_piece_length (g : Grid) (p : Tetromino) :
    (place_piece g p).length = g.length := by
  unfold place_piece
  generalize get_cells p = cells
  induction cells generalizing g with
  | nil => rfl
  | cons c t ih =>
    rw [List.foldl_cons, ih]
    by_cases hy : 0 ≤ c.2
    · rw [if_pos hy, set_cell_length]
    · rw [if_neg hy]

theorem cells_ok_set_cell (g : Grid) (x y : Int) (col : Cell)
    (hcol : ∃ k : Shape, col = TETROMINO_COLORS k) (h : cells_ok g) :
    cells_ok (set_cell g x y col) := by
  intro row hrow cell hcell
  unfold set_cell at hrow
  rcases List.mem_or_eq_of_mem_set hrow with hrow2 | rfl
  · exact h row hrow2 cell hcell
  · rcases List.mem_or_eq_of_mem_set hcell with hc | rfl
    · by_cases hyb : y.toNat < g.length
      · exact h _ (getD_mem_of_lt g y.toNat [] hyb) cell hc
      · rw [List.getD_eq_getElem?_getD, List.getElem?_eq_none (by omega)] at hc
        cases hc
    · exact Or.inr hcol

theorem cells_ok_place (g : Grid) (p : Tetromino)
    (hcol : ∃ k : Shape, p.color = TETROMINO_COLORS k) (h : cells_ok g) :
    cells_ok (place_piece g p) := by
  unfold place_piece
  generalize get_cells p = cells
  induction cells generalizing g with
  | nil => exact h
  | cons c t ih =>
    rw [List.foldl_cons]
    apply ih
    by_cases hy : 0 ≤ c.2
    · rw [if_pos hy]
      exact cells_ok_set_cell g c.1 c.2 p.color hcol h
    · rw [if_neg hy]
      exact h

theorem countP_not_add {α : Type} (p : α → Bool) (l : List α) :
    l.countP p + l.countP (fun a => !(p a)) = l.length := by
  induction l with
  | nil => rfl
  | cons a t ih =>
    by_cases h : p a <;>
      simp [List.countP_cons, h] <;> omega

theorem clear_lines_grid_length (g : Grid) (hl : g.length = GRID_HEIGHT) :
    (clear_lines_grid g).length = GRID_HEIGHT := by
  rw [clear_lines_grid_eq g hl, List.length_append, List.length_replicate,
    ← List.countP_eq_length_filter]
  have h2 := countP_not_add row_complete g
  omega

theorem cells_ok_clear (g : Grid) (h : cells_ok g) (hl : g.length = GRID_HEIGHT) :
    cells_ok (clear_lines_grid g) := by
  rw [clear_lines_grid_eq g hl]
  intro row hrow cell hcell
  rcases List.mem_append.mp hrow with hr | hr
  · rw [List.eq_of_mem_replicate hr] at hcell
    exact Or.inl (List.eq_of_mem_replicate hcell)
  · exact h row (List.mem_of_mem_filter hr) cell hcell

theorem init_grid_cells_ok : cells_ok init_grid := by
  intro row hrow cell hcell
  rw [List.eq_of_mem_replicate hrow] at hcell
  exact Or.inl (List.eq_of_mem_replicate hcell)

/-- A freshly spawned piece of any kind is valid on the empty grid. -/
theorem init_piece_valid (sh : Shape) :
    is_valid_position init_grid (new_piece sh) 0 0 none = true := by
  cases sh <;> decide

theorem colors_injective (k1 k2 : Shape)
    (h : TETROMINO_COLORS k1 = TETROMINO_COLORS k2) : k1 = k2 := by
  cases k1 <;> cases k2 <;> first | rfl | exact absurd h (by decide)

theorem game_inv_init (seq : Nat → Shape) : game_inv (init_game seq) :=
  ⟨fun _ => init_piece_valid (seq 0), rfl, rfl, rfl, init_grid_cells_ok⟩

theorem game_inv_reset (s : TetrisGame) : game_inv (reset_game s) :=
  ⟨fun _ => init_piece_valid (s.seq s.idx), rfl, rfl, rfl, init_grid_cells_ok⟩

theorem game_inv_move (s : TetrisGame) (dx : Int) (h : game_inv s) :
    game_inv (move_piece s dx) := by
  obtain ⟨hval, hc, hn, hlen, hcells⟩ := h
  unfold move_piece
  by_cases hv : is_valid_position s.grid s.current_piece dx 0 none = true
  · rw [if_pos hv]
    refine ⟨fun _ => ?_, hc, hn, hlen, hcells⟩
    show is_valid_position s.grid { s.current_piece with x := s.current_piece.x + dx }
      0 0 none = true
    rw [is_valid_shift_x]
    exact hv
  · rw [if_neg hv]
    exact ⟨hval, hc, hn, hlen, hcells⟩

theorem game_inv_rot (s : TetrisGame) (h : game_inv s) : game_inv (rotate_piece s) := by
  obtain ⟨hval, hc, hn, hlen, hcells⟩ := h
  unfold rotate_piece
  by_cases hv : is_valid_position s.grid s.current_piece 0 0
      (some ((s.current_piece.rotation + 1) %
        (TETROMINOES s.current_piece.shape).length)) = true
  · rw [if_pos hv]
    refine ⟨fun _ => ?_, hc, hn, hlen, hcells⟩
    show is_valid_position s.grid
      { s.current_piece with
        rotation := (s.current_piece.rotation + 1) %
          (TETROMINOES s.current_piece.shape).length } 0 0 none = true
    rw [is_valid_rot]
    exact hv
  · rw [if_neg hv]
    exact ⟨hval, hc, hn, hlen, hcells⟩

theorem game_inv_soft (s : TetrisGame) (h : game_inv s) : game_inv (soft_drop s) := by
  obtain ⟨hval, hc, hn, hlen, hcells⟩ := h
  unfold soft_drop
  by_cases hv : is_valid_position s.grid s.current_piece 0 1 none = true
  · rw [if_pos hv]
    refine ⟨fun _ => ?_, hc, hn, hlen, hcells⟩
    show is_valid_position s.grid { s.current_piece with y := s.current_piece.y + 1 }
      0 0 none = true
    rw [is_valid_shift_y]
    exact hv
  · rw [if_neg hv]
    exact ⟨hval, hc, hn, hlen, hcells⟩

theorem drop_piece_go_valid_aux (g : Grid) :
    ∀ (m : Nat) (p : Tetromino), (20 - p.y).toNat = m →
      is_valid_position g p 0 0 none = true →
      is_valid_position g (drop_piece_go g p) 0 0 none = true := by
  intro m
  induction m using Nat.strong_induction_on with
  | _ m ih =>
    intro p hm hval
    unfold drop_piece_go
    split
    case isTrue hv =>
      have hy := valid_down_y_le g p hv
      apply ih ((20 - (p.y + 1)).toNat) (by omega) _ rfl
      show is_valid_position g { p with y := p.y + 1 } 0 0 none = true
      rw [is_valid_shift_y]
      exact hv
    case isFalse hv => exact hval

theorem game_inv_hard (s : TetrisGame) (h : game_inv s) : game_inv (drop_piece s) := by
  obtain ⟨hval, hc, hn, hlen, hcells⟩ := h
  unfold drop_piece
  have hspec := drop_piece_go_spec s.grid s.current_piece
  refine ⟨fun hov => ?_, ?_, hn, hlen, hcells⟩
  · exact drop_piece_go_valid_aux s.grid _ s.current_piece rfl (hval hov)
  · show (drop_piece_go s.grid s.current_piece).color =
      TETROMINO_COLORS (drop_piece_go s.grid s.current_piece).shape
    rw [hspec.2.2.2.1, hspec.2.2.1]
    exact hc

theorem update_eq_cases (s : TetrisGame) (dt : Int) :
    (update s dt = s ∧ s.game_over = true) ∨
    (s.game_over = false ∧ s.fall_time + dt < s.fall_speed ∧
      update s dt = { s with fall_time := s.fall_time + dt }) ∨
    (s.game_over = false ∧ s.fall_speed ≤ s.fall_time + dt ∧
      is_valid_position s.grid s.current_piece 0 1 none = true ∧
      update s dt =
        { s with
          current_piece := { s.current_piece with y := s.current_piece.y + 1 }
          fall_time := 0 }) ∨
    (s.game_over = false ∧ s.fall_speed ≤ s.fall_time + dt ∧
      is_valid_position s.grid s.current_piece 0 1 none = false ∧
      update s dt = lock_result s dt) := by
  by_cases hg : s.game_over = true
  · left
    exact ⟨by unfold update; rw [if_pos hg], hg⟩
  · right
    have hg2 : s.game_over = false := Bool.eq_false_iff.mpr hg
    by_cases hth : s.fall_speed ≤ s.fall_time + dt
    · right
      by_cases hv : is_valid_position s.grid s.current_piece 0 1 none = true
      · left
        refine ⟨hg2, hth, hv, ?_⟩
        unfold update
        rw [if_neg hg]
        simp only []
        rw [if_pos hth, if_pos hv]
      · right
        refine ⟨hg2, hth, Bool.eq_false_iff.mpr hv, ?_⟩
        unfold update
        rw [if_neg hg]
        simp only []
        rw [if_pos hth, if_neg hv]
        rfl
    · left
      refine ⟨hg2, by omega, ?_⟩
      unfold update
      rw [if_neg hg]
      simp only []
      rw [if_neg hth]

theorem game_inv_lock (s : TetrisGame) (dt : Int) (h : game_inv s) :
    game_inv (lock_result s dt) := by
  obtain ⟨hval, hc, hn, hlen, hcells⟩ := h
  have hg1len : (place_piece s.grid s.current_piece).length = GRID_HEIGHT := by
    rw [place_piece_length]
    exact hlen
  have hg2len : (clear_lines_grid (place_piece s.grid s.current_piece)).length =
      GRID_HEIGHT := clear_lines_grid_length _ hg1len
  have hg1ok : cells_ok (place_piece s.grid s.current_piece) :=
    cells_ok_place s.grid s.current_piece ⟨s.current_piece.shape, hc⟩ hcells
  have hg2ok : cells_ok (clear_lines_grid (place_piece s.grid s.current_piece)) :=
    cells_ok_clear _ hg1ok hg1len
  unfold lock_result
  simp only [clear_lines_grid_proj, clear_lines_next, clear_lines_seq, clear_lines_idx]
  split
  case isTrue hspawn =>
    exact ⟨fun _ => hspawn, hn, rfl, hg2len, hg2ok⟩
  case isFalse hspawn =>
    refine ⟨fun habs => ?_, hn, rfl, hg2len, hg2ok⟩
    simp at habs

theorem game_inv_tick (s : TetrisGame) (dt : Int) (h : game_inv s) :
    game_inv (update s dt) := by
  rcases update_eq_cases s dt with ⟨heq, _⟩ | ⟨hg, _, heq⟩ | ⟨hg, _, hv, heq⟩ |
    ⟨hg, _, hv, heq⟩
  · rw [heq]
    exact h
  · rw [heq]
    obtain ⟨hval, hc, hn, hlen, hcells⟩ := h
    exact ⟨hval, hc, hn, hlen, hcells⟩
  · rw [heq]
    obtain ⟨hval, hc, hn, hlen, hcells⟩ := h
    refine ⟨fun _ => ?_, hc, hn, hlen, hcells⟩
    show is_valid_position s.grid { s.current_piece with y := s.current_piece.y + 1 }
      0 0 none = true
    rw [is_valid_shift_y]
    exact hv
  · rw [heq]
    exact game_inv_lock s dt ⟨h.1, h.2.1, h.2.2.1, h.2.2.2.1, h.2.2.2.2⟩

/-- Every reachable state satisfies the engine invariant. -/
theorem reachable_game_inv (s : TetrisGame) (h : Reachable s) : game_inv s := by
  induction h with
  | init seq => exact game_inv_init seq
  | tick s dt _ ih => exact game_inv_tick s dt ih
  | move s dx _ ih => exact game_inv_move s dx ih
  | rot s _ ih => exact game_inv_rot s ih
  | soft s _ ih => exact game_inv_soft s ih
  | hard s _ ih => exact game_inv_hard s ih
  | reset s _ _ => exact game_inv_reset s

/-- C9: in every reachable state, while the game runs, every visible cell the
current piece occupies is empty — so the `place_piece` call of the lock
branch only ever writes to previously empty cells — and every grid cell is
either the empty sentinel or the tag of exactly one piece kind. -/
theorem no_overlap_invariant (s : TetrisGame) (h : Reachable s) :
    (s.game_over = false →
      ∀ c ∈ get_cells s.current_piece, 0 ≤ c.2 → cellAt s.grid c.1 c.2 = BLACK) ∧
    (∀ row ∈ s.grid, ∀ cell ∈ row,
      cell = BLACK ∨ ∃ k : Shape, cell = TETROMINO_COLORS k ∧
        ∀ k2 : Shape, cell = TETROMINO_COLORS k2 → k2 = k) := by
  obtain ⟨hval, hc, hn, hlen, hcells⟩ := reachable_game_inv s h
  constructor
  · intro hov
    exact valid_cells_empty s.grid s.current_piece (hval hov)
  · intro row hrow cell hcell
    rcases hcells row hrow cell hcell with hb | ⟨k, hk⟩
    · exact Or.inl hb
    · refine Or.inr ⟨k, hk, fun k2 hk2 => ?_⟩
      exact colors_injective k2 k (hk2.symm.trans hk)

/-- Witness for C9 at the initial state. -/
theorem no_overlap_invariant_witness :
    ((init_game (fun _ => Shape.J)).game_over = false →
      ∀ c ∈ get_cells (init_game (fun _ => Shape.J)).current_piece, 0 ≤ c.2 →
        cellAt (init_game (fun _ => Shape.J)).grid c.1 c.2 = BLACK) ∧
    (∀ row ∈ (init_game (fun _ => Shape.J)).grid, ∀ cell ∈ row,
      cell = BLACK ∨ ∃ k : Shape, cell = TETROMINO_COLORS k ∧
        ∀ k2 : Shape, cell = TETROMINO_COLORS k2 → k2 = k) :=
  no_overlap_invariant (init_game (fun _ => Shape.J))
    (Reachable.init (fun _ => Shape.J))

end Tetris
